import Mathlib

/-!
Verification development for the json-versioning-backend repository.

The repository is an Express/Mongoose service whose core is the
version-history engine in `src/controllers/documentController.ts`
(the authenticated controller variant).  This file gives a shallow
embedding of that core:

* `Json` models the structured values produced by `JSON.parse`
  (numbers are modelled as integers; the model's JSON dialect has no
  floating point and no insignificant whitespace);
* `serJson` models `JSON.stringify` (the canonical serialization used
  as the fallback of the diff engine's `objectHash`);
* `deVal` is a decoder used both as the model of `JSON.parse` and to
  prove that the serialization is injective;
* `jdpDiffF` models the structural diff of the `jsondiffpatch`
  instance created at `documentController.ts:8-11` (equality first,
  whole-value replace for opaque or scalar values, recursive
  object/array comparison with `objectHash` matching and the
  `$hashKey` property filter);
* `St`, `createDocument`, `createVersion`, `mergeVersion`,
  `updateDocumentName`, `updateVersionContent` embed the MongoDB
  state and the controller handlers.
-/

mutual
/-- A structured JSON value as produced by `JSON.parse`.  Numbers are
modelled as integers. -/
inductive Json where
  | null : Json
  | bool : Bool → Json
  | num : Int → Json
  | str : String → Json
  | arr : JsonList → Json
  | obj : JsonMembers → Json
deriving DecidableEq, Repr

/-- A list of JSON array elements. -/
inductive JsonList where
  | nil : JsonList
  | cons : Json → JsonList → JsonList
deriving DecidableEq, Repr

/-- The ordered key/value members of a JSON object (insertion order,
as JavaScript objects preserve it). -/
inductive JsonMembers where
  | nil : JsonMembers
  | cons : String → Json → JsonMembers → JsonMembers
deriving DecidableEq, Repr
end

/-- The character for a decimal digit value below ten. -/
def digitChar (d : Nat) : Char := Char.ofNat (48 + d)

/-- Big-endian decimal digits of a positive number; the first argument
is fuel (any fuel at least the number itself is enough). -/
def natCharsAux : Nat → Nat → List Char
  | 0, _ => []
  | _, 0 => []
  | fuel + 1, n + 1 => natCharsAux fuel ((n + 1) / 10) ++ [digitChar ((n + 1) % 10)]

/-- Decimal representation of a natural number. -/
def natChars (n : Nat) : List Char := if n = 0 then [ '0' ] else natCharsAux n n

/-- Decimal representation of an integer. -/
def intChars : Int → List Char
  | Int.ofNat n => natChars n
  | Int.negSucc n => '-' :: natChars (n + 1)

/-- JSON string-literal escaping of one character (quote and backslash
are escaped with a backslash). -/
def escChar (c : Char) : List Char := if c = '"' ∨ c = '\\' then [ '\\', c ] else [c]

/-- JSON string-literal escaping of a character sequence. -/
def escList : List Char → List Char
  | [] => []
  | c :: cs => escChar c ++ escList cs

/-- A JSON string literal: quote, escaped body, quote. -/
def quoteStr (s : String) : List Char := '"' :: (escList s.data ++ [ '"' ])

mutual
/-- Modelled from the spec: the canonical serialization of a structured
value (`JSON.stringify` with no spacing), used by the diff engine's
object-identity fallback.  `JSON.stringify` itself is a platform
builtin and is not part of the repository sources. -/
def serJson : Json → List Char
  | .null => "null".data
  | .bool true => "true".data
  | .bool false => "false".data
  | .num i => intChars i
  | .str s => quoteStr s
  | .arr xs => '[' :: (serElems xs ++ [ ']' ])
  | .obj kvs => '{' :: (serMembers kvs ++ [ '}' ])

/-- Serialization of array elements, comma separated. -/
def serElems : JsonList → List Char
  | .nil => []
  | .cons x .nil => serJson x
  | .cons x (.cons y xs) => serJson x ++ ',' :: serElems (.cons y xs)

/-- Serialization of object members, comma separated. -/
def serMembers : JsonMembers → List Char
  | .nil => []
  | .cons k v .nil => quoteStr k ++ ':' :: serJson v
  | .cons k v (.cons k2 v2 ms) => quoteStr k ++ ':' :: serJson v ++ ',' :: serMembers (.cons k2 v2 ms)
end

/-- The serialized form of a value, as a string. -/
def stringify (x : Json) : String := String.mk (serJson x)

/-- Decoder for the body of a JSON string literal (after the opening
quote); returns the decoded characters and the input following the
closing quote. -/
def deStr : List Char → Option (List Char × List Char)
  | [] => none
  | c :: cs =>
    if c = '"' then some ([], cs)
    else if c = '\\' then
      match cs with
      | [] => none
      | d :: cs2 =>
        match deStr cs2 with
        | none => none
        | some (s, r) => some (d :: s, r)
    else
      match deStr cs with
      | none => none
      | some (s, r) => some (c :: s, r)

/-- Splits a character list into its longest digit prefix and the rest. -/
def spanDigits : List Char → List Char × List Char
  | [] => ([], [])
  | c :: cs =>
    if c.isDigit then
      let p := spanDigits cs
      (c :: p.1, p.2)
    else ([], c :: cs)

/-- Numeric value of a big-endian digit sequence. -/
def natVal (ds : List Char) : Nat := ds.foldl (fun a c => 10 * a + (c.toNat - 48)) 0

/-- Decoder for an unsigned decimal numeral (at least one digit). -/
def deNat (cs : List Char) : Option (Nat × List Char) :=
  match spanDigits cs with
  | ([], _) => none
  | (d :: ds, r) => some (natVal (d :: ds), r)

mutual
/-- Fuel-indexed decoder for one JSON value; inverts `serJson` and also
serves as the model of `JSON.parse` (whitespace-free integer dialect). -/
def deVal : Nat → List Char → Option (Json × List Char)
  | 0, _ => none
  | _, [] => none
  | fuel + 1, c :: cs =>
    if c = 'n' then
      match cs with
      | 'u' :: 'l' :: 'l' :: rest => some (.null, rest)
      | _ => none
    else if c = 't' then
      match cs with
      | 'r' :: 'u' :: 'e' :: rest => some (.bool true, rest)
      | _ => none
    else if c = 'f' then
      match cs with
      | 'a' :: 'l' :: 's' :: 'e' :: rest => some (.bool false, rest)
      | _ => none
    else if c = '"' then
      match deStr cs with
      | none => none
      | some (s, r) => some (.str (String.mk s), r)
    else if c = '[' then
      match deElems fuel cs with
      | none => none
      | some (xs, r) => some (.arr xs, r)
    else if c = '{' then
      match deMembers fuel cs with
      | none => none
      | some (ms, r) => some (.obj ms, r)
    else if c = '-' then
      match deNat cs with
      | none => none
      | some (n, r) => some (.num (-(n : Int)), r)
    else if c.isDigit then
      match deNat (c :: cs) with
      | none => none
      | some (n, r) => some (.num (n : Int), r)
    else none

/-- Fuel-indexed decoder for the remainder of a JSON array (after the
opening bracket). -/
def deElems : Nat → List Char → Option (JsonList × List Char)
  | 0, _ => none
  | fuel + 1, cs =>
    if cs.head? = some ']' then some (.nil, cs.tail)
    else
      match deVal fuel cs with
      | none => none
      | some (x, r) =>
        match r with
        | ',' :: r2 =>
          match deElems fuel r2 with
          | none => none
          | some (xs, r3) => some (.cons x xs, r3)
        | ']' :: r2 => some (.cons x .nil, r2)
        | _ => none

/-- Fuel-indexed decoder for the remainder of a JSON object (after the
opening brace). -/
def deMembers : Nat → List Char → Option (JsonMembers × List Char)
  | 0, _ => none
  | fuel + 1, cs =>
    if cs.head? = some '}' then some (.nil, cs.tail)
    else
      match cs with
      | '"' :: cs2 =>
        match deStr cs2 with
        | none => none
        | some (k, r) =>
          match r with
          | ':' :: r2 =>
            match deVal fuel r2 with
            | none => none
            | some (v, r3) =>
              match r3 with
              | ',' :: r4 =>
                match deMembers fuel r4 with
                | none => none
                | some (ms, r5) => some (.cons (String.mk k) v ms, r5)
              | '}' :: r4 => some (.cons (String.mk k) v .nil, r4)
              | _ => none
          | _ => none
      | _ => none
end

/-- Modelled from the spec: `ContentCodec.decode` — the structured
parse attempted by `JSON.parse` at `documentController.ts:163-164`;
returns `none` exactly where `JSON.parse` would throw (in the model's
whitespace-free integer JSON dialect).  `JSON.parse` is a platform
builtin and is not part of the repository sources. -/
def parseJson (s : String) : Option Json :=
  match deVal (2 * s.length + 2) s.data with
  | some (x, []) => some x
  | _ => none

/-- JavaScript property access `o[k]` on a structured value: `some`
for a present object member, `none` (undefined) otherwise. -/
def getField : Json → String → Option Json
  | .obj ms, k => getMember ms k
  | _, _ => none
where
  getMember : JsonMembers → String → Option Json
    | .nil, _ => none
    | .cons k2 v ms, k => if k2 = k then some v else getMember ms k

/-- JavaScript truthiness of a structured value (`null`, `false`, `0`
and the empty string are falsy; arrays and objects are truthy). -/
def jsTruthy : Json → Bool
  | .null => false
  | .bool b => b
  | .num n => n ≠ 0
  | .str s => s ≠ ""
  | .arr _ => true
  | .obj _ => true

/-- The `objectHash` configured at `documentController.ts:9`:
`(obj) => obj.id || JSON.stringify(obj)` — the element's `id` field
when present and truthy, else the serialization of the whole element
(an absent field is `undefined`, hence falsy). -/
def objectHash (o : Json) : Json :=
  match getField o "id" with
  | some v => if jsTruthy v then v else .str (stringify o)
  | none => .str (stringify o)

/-- Whether the diff engine matches two array elements as the same
object: their `objectHash` keys are equal. -/
def itemsMatch (x y : Json) : Bool := decide (objectHash x = objectHash y)

/-- The `propertyFilter` configured at `documentController.ts:10`:
the reserved bookkeeping key excluded from object comparison. -/
def hashKeyName : String := "$hashKey"

mutual
/-- A structural diff value: additions, removals and whole-value
changes, with nested child diffs keyed by property name or array
index (the shape of a `jsondiffpatch` delta). -/
inductive Delta where
  | add : Json → Delta
  | remove : Json → Delta
  | replace : Json → Json → Delta
  | inner : DeltaEntries → Delta
deriving DecidableEq, Repr

/-- Child diff entries of a nested delta, keyed by path component. -/
inductive DeltaEntries where
  | nil : DeltaEntries
  | cons : String → Delta → DeltaEntries → DeltaEntries
deriving DecidableEq, Repr
end

/-- Concatenation of child diff entries. -/
def entriesAppend : DeltaEntries → DeltaEntries → DeltaEntries
  | .nil, e => e
  | .cons k d es, e => .cons k d (entriesAppend es e)

/-- Whether a child entry list is empty (an empty delta is dropped). -/
def entriesIsNil : DeltaEntries → Bool
  | .nil => true
  | .cons _ _ _ => false

/-- Object members with the reserved `$hashKey` property removed. -/
def membersFilter : JsonMembers → JsonMembers
  | .nil => .nil
  | .cons k v ms => if k = hashKeyName then membersFilter ms else .cons k v (membersFilter ms)

/-- Whether an object member list has a member with the given key. -/
def memberHasKey : JsonMembers → String → Bool
  | .nil, _ => false
  | .cons k2 _ ms, k => if k2 = k then true else memberHasKey ms k

/-- First element of an array hash-matching the given element. -/
def listFindMatch : JsonList → Json → Option Json
  | .nil, _ => none
  | .cons x xs, y => if itemsMatch x y then some x else listFindMatch xs y

/-- Whether an array has an element hash-matching the given element. -/
def listHasMatch : JsonList → Json → Bool
  | .nil, _ => false
  | .cons x xs, y => if itemsMatch x y then true else listHasMatch xs y

/-- Node count of a structured value (used to provision diff fuel). -/
def jsize : Json → Nat
  | .arr xs => 1 + jsizeL xs
  | .obj ms => 1 + jsizeM ms
  | _ => 1
where
  jsizeL : JsonList → Nat
    | .nil => 1
    | .cons x xs => 1 + jsize x + jsizeL xs
  jsizeM : JsonMembers → Nat
    | .nil => 1
    | .cons _ v ms => 1 + jsize v + jsizeM ms

/-- Added-member entries of an object diff: members of the new side
whose key is absent from the old side. -/
def objDiffNew : JsonMembers → JsonMembers → DeltaEntries
  | _, .nil => .nil
  | ka, .cons k v ms =>
    if memberHasKey ka k then objDiffNew ka ms
    else .cons k (.add v) (objDiffNew ka ms)

/-- Removed-element entries of an array diff: elements of the old side
(keyed by underscored old index) with no hash-match on the new side. -/
def arrDiffOld (i : Nat) : JsonList → JsonList → DeltaEntries
  | .nil, _ => .nil
  | .cons x xs, xb =>
    if listHasMatch xb x then arrDiffOld (i + 1) xs xb
    else .cons (String.mk ('_' :: natChars i)) (.remove x) (arrDiffOld (i + 1) xs xb)

mutual
/-- Modelled from the spec: the structural diff of the configured
`jsondiffpatch` instance (`DiffEngine.diff`).  Equal values give the
empty diff; objects and arrays are compared recursively (objects by
key with the `$hashKey` filter, array elements matched by
`objectHash`); any other pair — opaque or scalar values, or a type
change — degrades to a single whole-value replace.  The `jsondiffpatch`
library is an external dependency, not part of the repository sources.
Fuel bounds the recursion depth; with exhausted fuel the diff degrades
to a whole-value replace. -/
def jdpDiffF : Nat → Json → Json → Option Delta
  | 0, a, b => if a = b then none else some (.replace a b)
  | fuel + 1, a, b =>
    if a = b then none
    else
      match a, b with
      | .obj ka, .obj kb =>
        let fa := membersFilter ka
        let fb := membersFilter kb
        let children := entriesAppend (objDiffOld fuel fa fb) (objDiffNew fa fb)
        if entriesIsNil children then none else some (.inner children)
      | .arr xa, .arr xb =>
        let children := entriesAppend (arrDiffOld 0 xa xb) (arrDiffNew fuel 0 xa xb)
        if entriesIsNil children then none else some (.inner children)
      | a, b => some (.replace a b)

/-- Removed- and changed-member entries of an object diff, iterating
the old side: a member missing on the new side is removed; a shared
key recurses into the two values. -/
def objDiffOld : Nat → JsonMembers → JsonMembers → DeltaEntries
  | _, .nil, _ => .nil
  | 0, .cons _ _ _, _ => .nil
  | fuel + 1, .cons k v ms, kb =>
    match getField.getMember kb k with
    | some v2 =>
      match jdpDiffF fuel v v2 with
      | some d => .cons k d (objDiffOld fuel ms kb)
      | none => objDiffOld fuel ms kb
    | none => .cons k (.remove v) (objDiffOld fuel ms kb)

/-- Added- and changed-element entries of an array diff, iterating the
new side (keyed by new index): an element with a hash-match on the old
side recurses into the matched pair; an unmatched element is added. -/
def arrDiffNew : Nat → Nat → JsonList → JsonList → DeltaEntries
  | _, _, _, .nil => .nil
  | 0, _, _, .cons _ _ => .nil
  | fuel + 1, j, xa, .cons y ys =>
    match listFindMatch xa y with
    | some x0 =>
      match jdpDiffF fuel x0 y with
      | some d => .cons (String.mk (natChars j)) d (arrDiffNew fuel (j + 1) xa ys)
      | none => arrDiffNew fuel (j + 1) xa ys
    | none => .cons (String.mk (natChars j)) (.add y) (arrDiffNew fuel (j + 1) xa ys)
end

/-- `diffPatcher.diff` on two structured values, with fuel provisioned
from the sizes of the two sides. -/
def diffPatcherDiff (a b : Json) : Option Delta := jdpDiffF (jsize a + jsize b) a b

/-- The diff-input preparation of `createVersion`
(`documentController.ts:160-168`): parse both sides; if either parse
throws, both sides fall back to the raw strings (the `catch` block
reassigns both variables). -/
def diffInputs (oldRaw newRaw : String) : Json × Json :=
  match parseJson oldRaw, parseJson newRaw with
  | some a, some b => (a, b)
  | _, _ => (.str oldRaw, .str newRaw)

/-- The diff computed by `createVersion` at `documentController.ts:169`:
`diffPatcher.diff(oldContent, newContent)` on the prepared inputs. -/
def computeDiff (oldRaw newRaw : String) : Option Delta :=
  diffPatcherDiff (diffInputs oldRaw newRaw).1 (diffInputs oldRaw newRaw).2

/-- Models the JavaScript validation test comparing `name.trim()` with
the empty string: a string trims to the empty string exactly when every
character is whitespace (`String.trim` itself is not kernel-reducible,
so the model uses the equivalent character-wise test). -/
def trimEmpty (s : String) : Bool := s.data.all (fun c => c.isWhitespace)

/-- A persisted document (`src/models/Document.ts`): name, current
content snapshot, owner, and mongoose timestamps.  Identifiers are
modelled as naturals. -/
structure Doc where
  id : Nat
  name : String
  content : String
  userId : Option Nat
  createdAt : Nat
  updatedAt : Nat
deriving DecidableEq, Repr

/-- The value persisted in a Version's `diff` field (a
`Schema.Types.Mixed` field): `createDocument` stores the literal empty
array, `createVersion` stores a `jsondiffpatch` delta; an absent field
(`undefined`, as `mergeVersion` leaves it) is `none` at the `Option`
level. -/
inductive StoredDiff where
  | emptyList : StoredDiff
  | delta : Delta → StoredDiff
deriving DecidableEq, Repr

/-- A persisted version (`Version` model in the repository sources):
full content snapshot, auto-save flag, stored diff, optional merge
provenance, and mongoose timestamps. -/
structure Ver where
  id : Nat
  documentId : Nat
  content : String
  isAutoSave : Bool
  userId : Option Nat
  diff : Option StoredDiff
  mergedFrom : Option Nat
  createdAt : Nat
  updatedAt : Nat
deriving DecidableEq, Repr

/-- The MongoDB state visible to the controller: the two collections,
a fresh-identifier counter, and the current clock value used for
mongoose `createdAt`/`updatedAt` timestamps. -/
structure St where
  documents : List Doc
  versions : List Ver
  nextId : Nat
  now : Nat
deriving DecidableEq, Repr

/-- An untyped JavaScript request-body value, as far as the
controller's `typeof` validations distinguish it. -/
inductive JsVal where
  | vstr : String → JsVal
  | vbool : Bool → JsVal
  | vnum : Int → JsVal
  | vnull : JsVal
  | vundef : JsVal
deriving DecidableEq, Repr

/-- The controller's response, reduced to its status classification
(the error taxonomy: Validation 400, 401, AccessDenied 403, NotFound
404, Internal 500) with the handler's message where one is fixed. -/
inductive Resp where
  | ok : Resp
  | created : Resp
  | badRequest : String → Resp
  | unauthorized : Resp
  | forbidden : Resp
  | notFound : String → Resp
  | internalError : Resp
deriving DecidableEq, Repr

/-- `Document.findById`. -/
def findDoc (st : St) (docId : Nat) : Option Doc :=
  st.documents.find? (fun d => d.id == docId)

/-- `Version.findById`. -/
def findVer (st : St) (versionId : Nat) : Option Ver :=
  st.versions.find? (fun v => v.id == versionId)

/-- `Version.findOne({ _id: versionId, documentId: docId })`. -/
def findVerOfDoc (st : St) (versionId docId : Nat) : Option Ver :=
  st.versions.find? (fun v => v.id == versionId && v.documentId == docId)

/-- `createDocument` (`documentController.ts:15-50`): validate name
and content, require an authenticated user, persist the document, then
persist the initial version (content, `isAutoSave: false`, `diff: []`).
The two creations are separate awaited calls with no transaction;
`versionCreateOk` says whether the second persistence call succeeds —
when it throws, the catch block reports an internal error and the
already-created document stays. -/
def createDocument (st : St) (nameV contentV : JsVal) (user? : Option Nat)
    (versionCreateOk : Bool) : St × Resp :=
  match nameV with
  | .vstr name =>
    if trimEmpty name then (st, .badRequest "Name must be a non-empty string.")
    else
      match contentV with
      | .vstr content =>
        match user? with
        | none => (st, .unauthorized)
        | some u =>
          let doc : Doc :=
            { id := st.nextId, name := name, content := content,
              userId := some u, createdAt := st.now, updatedAt := st.now }
          let st1 : St := { st with documents := st.documents ++ [doc], nextId := st.nextId + 1 }
          if versionCreateOk then
            let ver : Ver :=
              { id := st1.nextId, documentId := doc.id, content := content,
                isAutoSave := false, diff := some .emptyList, userId := doc.userId,
                mergedFrom := none, createdAt := st.now, updatedAt := st.now }
            ({ st1 with versions := st1.versions ++ [ver], nextId := st1.nextId + 1 }, .created)
          else (st1, .internalError)
      | _ => (st, .badRequest "Content must be a string.")
  | _ => (st, .badRequest "Name must be a non-empty string.")

/-- `createVersion` (`documentController.ts:138-194`): validate the
content and `isAutoSave` types first, find the document, check
ownership, compute the diff against the document's current content,
persist the new version, then overwrite the document's content.  The
ObjectId format check is vacuous in the model (identifiers are
naturals). -/
def createVersion (st : St) (docId : Nat) (contentV isAutoSaveV : JsVal)
    (user? : Option Nat) : St × Resp :=
  match contentV with
  | .vstr content =>
    match isAutoSaveV with
    | .vbool isAutoSave =>
      match findDoc st docId with
      | none => (st, .notFound "Document not found")
      | some doc =>
        match user?, doc.userId with
        | some u, some du =>
          if du ≠ u then (st, .forbidden)
          else
            let ver : Ver :=
              { id := st.nextId, documentId := doc.id, content := content,
                isAutoSave := isAutoSave,
                diff := (computeDiff doc.content content).map .delta,
                userId := doc.userId, mergedFrom := none,
                createdAt := st.now, updatedAt := st.now }
            ({ st with
                versions := st.versions ++ [ver],
                nextId := st.nextId + 1,
                documents := st.documents.map (fun d =>
                  if d.id == doc.id then { d with content := content, updatedAt := st.now } else d) },
              .created)
        | _, _ => (st, .forbidden)
    | _ => (st, .badRequest "isAutoSave is required and must be a boolean.")
  | _ => (st, .badRequest "Content must be a string.")

/-- `mergeVersion` (`documentController.ts:259-300`): find the
document, check ownership, find the version under that document, copy
the version's content onto the document, and persist a new version
with `mergedFrom` set.  No diff is computed or stored on the merged
version (its `diff` field is left undefined). -/
def mergeVersion (st : St) (docId versionId : Nat) (user? : Option Nat) : St × Resp :=
  match findDoc st docId with
  | none => (st, .notFound "Document not found")
  | some doc =>
    match user?, doc.userId with
    | some u, some du =>
      if du ≠ u then (st, .forbidden)
      else
        match findVerOfDoc st versionId docId with
        | none => (st, .notFound "Version not found")
        | some version =>
          let merged : Ver :=
            { id := st.nextId, documentId := doc.id, content := version.content,
              isAutoSave := false, diff := none, userId := doc.userId,
              mergedFrom := some version.id, createdAt := st.now, updatedAt := st.now }
          ({ st with
              documents := st.documents.map (fun d =>
                if d.id == doc.id then { d with content := version.content, updatedAt := st.now } else d),
              versions := st.versions ++ [merged],
              nextId := st.nextId + 1 },
            .ok)
    | _, _ => (st, .forbidden)

/-- `updateDocumentName` (`documentController.ts:303-338`): validate
the name, find the document, check ownership, save the renamed
document — and then build the success response from the undefined
identifier `doc` (`documentController.ts:331`), so the thrown
ReferenceError reaches the catch block and an Internal error is
reported although the rename was persisted. -/
def updateDocumentName (st : St) (docId : Nat) (nameV : JsVal)
    (user? : Option Nat) : St × Resp :=
  match nameV with
  | .vstr name =>
    if trimEmpty name then (st, .badRequest "Name must be a non-empty string.")
    else
      match findDoc st docId with
      | none => (st, .notFound "Document not found")
      | some docToUpdate =>
        match user?, docToUpdate.userId with
        | some u, some du =>
          if du ≠ u then (st, .forbidden)
          else
            ({ st with documents := st.documents.map (fun d =>
                if d.id == docToUpdate.id then { d with name := name, updatedAt := st.now } else d) },
              .internalError)
        | _, _ => (st, .forbidden)
  | _ => (st, .badRequest "Name must be a non-empty string.")

/-- `updateVersionContent` (`documentController.ts:388-430`): validate
the content, find the version, find its parent document, check
ownership, save the version with its content overwritten in place
(only `content` and the mongoose `updatedAt` change; no diff is
recomputed, no new version is created, and the parent document is
untouched) — and then build the success response from the undefined
identifier `version` (`documentController.ts:419`), so an Internal
error is reported although the update was persisted. -/
def updateVersionContent (st : St) (versionId : Nat) (contentV : JsVal)
    (user? : Option Nat) : St × Resp :=
  match contentV with
  | .vstr content =>
    match findVer st versionId with
    | none => (st, .notFound "Version not found")
    | some versionToUpdate =>
      match findDoc st versionToUpdate.documentId with
      | none => (st, .notFound "Parent document not found")
      | some parentDoc =>
        match user?, parentDoc.userId with
        | some u, some du =>
          if du ≠ u then (st, .forbidden)
          else
            ({ st with versions := st.versions.map (fun v =>
                if v.id == versionToUpdate.id then { v with content := content, updatedAt := st.now } else v) },
              .internalError)
        | _, _ => (st, .forbidden)
  | _ => (st, .badRequest "Content must be a string.")

/-- A character list that does not begin with a decimal digit (the
boundary condition under which a serialized numeral decodes back). -/
def headNotDigit (cs : List Char) : Prop := ∀ c, cs.head? = some c → c.isDigit = false

theorem natVal_append_digit (ds : List Char) (c : Char) :
    natVal (ds ++ [c]) = 10 * natVal ds + (c.toNat - 48) := by
  simp [natVal, List.foldl_append]

theorem digitChar_toNat (d : Nat) (hd : d < 10) : (digitChar d).toNat = 48 + d := by
  interval_cases d <;> decide

theorem digitChar_isDigit (d : Nat) (hd : d < 10) : (digitChar d).isDigit = true := by
  interval_cases d <;> decide

theorem natVal_natCharsAux : ∀ n fuel : Nat, n ≤ fuel → natVal (natCharsAux fuel n) = n := by
  intro n
  induction n using Nat.strong_induction_on with
  | _ n IH =>
    intro fuel hf
    match n, fuel with
    | 0, 0 => simp [natCharsAux, natVal]
    | 0, fuel + 1 => simp [natCharsAux, natVal]
    | n + 1, fuel + 1 =>
      rw [natCharsAux, natVal_append_digit]
      have hlt : (n + 1) / 10 < n + 1 := Nat.div_lt_self (Nat.succ_pos n) (by norm_num)
      rw [IH ((n + 1) / 10) hlt fuel (by omega)]
      rw [digitChar_toNat _ (Nat.mod_lt _ (by norm_num))]
      omega

theorem natVal_natChars (n : Nat) : natVal (natChars n) = n := by
  by_cases h : n = 0
  · subst h; decide
  · rw [natChars, if_neg h]
    exact natVal_natCharsAux n n le_rfl

theorem natCharsAux_digits : ∀ fuel n : Nat, ∀ c ∈ natCharsAux fuel n, c.isDigit = true := by
  intro fuel
  induction fuel with
  | zero => intro n c h; simp [natCharsAux] at h
  | succ fuel IH =>
    intro n c h
    match n with
    | 0 => simp [natCharsAux] at h
    | n + 1 =>
      rw [natCharsAux] at h
      rcases List.mem_append.mp h with h1 | h2
      · exact IH _ _ h1
      · simp only [List.mem_singleton] at h2
        subst h2
        exact digitChar_isDigit _ (Nat.mod_lt _ (by norm_num))

theorem natChars_digits (n : Nat) : ∀ c ∈ natChars n, c.isDigit = true := by
  intro c h
  rw [natChars] at h
  by_cases h0 : n = 0
  · rw [if_pos h0] at h; simp only [List.mem_singleton] at h; subst h; decide
  · rw [if_neg h0] at h; exact natCharsAux_digits _ _ _ h

theorem natChars_ne_nil (n : Nat) : natChars n ≠ [] := by
  rw [natChars]
  by_cases h0 : n = 0
  · rw [if_pos h0]; simp
  · rw [if_neg h0]
    match n, h0 with
    | n + 1, _ => rw [natCharsAux]; simp

theorem spanDigits_append : ∀ ds rest : List Char, (∀ c ∈ ds, c.isDigit = true) →
    headNotDigit rest → spanDigits (ds ++ rest) = (ds, rest) := by
  intro ds
  induction ds with
  | nil =>
    intro rest _ hrest
    match rest with
    | [] => rfl
    | c :: r =>
      have := hrest c rfl
      simp [spanDigits, this]
  | cons c ds IH =>
    intro rest hds hrest
    have hc : c.isDigit = true := hds c (List.mem_cons_self c ds)
    simp only [List.cons_append, spanDigits, hc, if_true, List.append_eq]
    rw [IH rest (fun d hd => hds d (List.mem_cons_of_mem c hd)) hrest]

theorem deNat_natChars (n : Nat) (rest : List Char) (hrest : headNotDigit rest) :
    deNat (natChars n ++ rest) = some (n, rest) := by
  rw [deNat, spanDigits_append (natChars n) rest (natChars_digits n) hrest]
  match hcn : natChars n with
  | [] => exact absurd hcn (natChars_ne_nil n)
  | d :: ds =>
    have : natVal (d :: ds) = n := by rw [← hcn]; exact natVal_natChars n
    simp [this]

theorem deStr_escList : ∀ s rest : List Char, deStr (escList s ++ '"' :: rest) = some (s, rest) := by
  intro s
  induction s with
  | nil =>
    intro rest
    show deStr ( '"' :: rest) = some ([], rest)
    rw [deStr.eq_def]; simp
  | cons c cs IH =>
    intro rest
    by_cases hc : c = '"' ∨ c = '\\'
    · rw [escList, escChar, if_pos hc]
      simp only [List.cons_append, List.nil_append]
      rw [deStr.eq_def]
      simp [IH rest]
    · push_neg at hc
      rw [escList, escChar, if_neg (by push_neg; exact hc)]
      simp only [List.cons_append, List.nil_append]
      rw [deStr.eq_def]
      simp [hc.1, hc.2, IH rest]

theorem isDigit_ne_special (c : Char) (hc : c.isDigit = true) :
    c ≠ 'n' ∧ c ≠ 't' ∧ c ≠ 'f' ∧ c ≠ '"' ∧ c ≠ '[' ∧ c ≠ '{' ∧ c ≠ '-' ∧
    c ≠ ']' ∧ c ≠ '}' ∧ c ≠ ',' := by
  refine ⟨?_, ?_, ?_, ?_, ?_, ?_, ?_, ?_, ?_, ?_⟩ <;>
    (intro h; subst h; revert hc; decide)

theorem jsize_pos (x : Json) : 1 ≤ jsize x := by
  cases x <;> simp [jsize]

theorem serJson_head (x : Json) :
    ∃ c t, serJson x = c :: t ∧ c ≠ ']' ∧ c ≠ '}' ∧ c ≠ ',' := by
  match x with
  | .null => exact ⟨'n', _, rfl, by decide, by decide, by decide⟩
  | .bool true => exact ⟨'t', _, rfl, by decide, by decide, by decide⟩
  | .bool false => exact ⟨'f', _, rfl, by decide, by decide, by decide⟩
  | .str s => exact ⟨'"', _, rfl, by decide, by decide, by decide⟩
  | .arr xs => exact ⟨'[', _, rfl, by decide, by decide, by decide⟩
  | .obj ms => exact ⟨'{', _, rfl, by decide, by decide, by decide⟩
  | .num (Int.negSucc n) => exact ⟨'-', _, rfl, by decide, by decide, by decide⟩
  | .num (Int.ofNat n) =>
    match hcn : natChars n with
    | [] => exact absurd hcn (natChars_ne_nil n)
    | c :: t =>
      have hc : c.isDigit = true := natChars_digits n c (by rw [hcn]; exact List.mem_cons_self c t)
      have hs := isDigit_ne_special c hc
      refine ⟨c, t, ?_, hs.2.2.2.2.2.2.2.1, hs.2.2.2.2.2.2.2.2.1, hs.2.2.2.2.2.2.2.2.2⟩
      show intChars (Int.ofNat n) = c :: t
      rw [intChars, hcn]

theorem jsizeL_pos (xs : JsonList) : 1 ≤ jsize.jsizeL xs := by
  cases xs
  · simp [jsize.jsizeL]
  · simp [jsize.jsizeL]; omega

theorem jsizeM_pos (ms : JsonMembers) : 1 ≤ jsize.jsizeM ms := by
  cases ms
  · simp [jsize.jsizeM]
  · simp [jsize.jsizeM]; omega

theorem deser_rt : ∀ fuel : Nat,
    (∀ (x : Json) (rest : List Char), jsize x ≤ fuel → headNotDigit rest →
      deVal fuel (serJson x ++ rest) = some (x, rest)) ∧
    (∀ (xs : JsonList) (rest : List Char), jsize.jsizeL xs ≤ fuel →
      deElems fuel (serElems xs ++ ']' :: rest) = some (xs, rest)) ∧
    (∀ (ms : JsonMembers) (rest : List Char), jsize.jsizeM ms ≤ fuel →
      deMembers fuel (serMembers ms ++ '}' :: rest) = some (ms, rest)) := by
  intro fuel
  induction fuel using Nat.strong_induction_on with
  | _ fuel IH =>
  refine ⟨?_, ?_, ?_⟩
  · intro x rest hf hrest
    have hpos : 1 ≤ jsize x := jsize_pos x
    cases fuel with
    | zero => omega
    | succ f =>
      match x with
      | .null =>
        show deVal (f + 1) ([ 'n', 'u', 'l', 'l' ] ++ rest) = some (.null, rest)
        rw [deVal.eq_def]; simp
      | .bool true =>
        show deVal (f + 1) ([ 't', 'r', 'u', 'e' ] ++ rest) = some (.bool true, rest)
        rw [deVal.eq_def]; simp
      | .bool false =>
        show deVal (f + 1) ([ 'f', 'a', 'l', 's', 'e' ] ++ rest) = some (.bool false, rest)
        rw [deVal.eq_def]; simp
      | .num (Int.ofNat n) =>
        obtain ⟨c, t, hcn⟩ : ∃ c t, natChars n = c :: t := by
          match h : natChars n with
          | [] => exact absurd h (natChars_ne_nil n)
          | c :: t => exact ⟨c, t, rfl⟩
        have hdig : c.isDigit = true :=
          natChars_digits n c (by rw [hcn]; exact List.mem_cons_self c t)
        have hs := isDigit_ne_special c hdig
        have hser : serJson (.num (Int.ofNat n)) = c :: t := by
          show intChars (Int.ofNat n) = c :: t
          rw [intChars, hcn]
        rw [hser]
        simp only [List.cons_append]
        rw [deVal.eq_def]
        have hnum : deNat (c :: (t ++ rest)) = some (n, rest) := by
          have : c :: (t ++ rest) = natChars n ++ rest := by rw [hcn]; rfl
          rw [this]
          exact deNat_natChars n rest hrest
        simp [hs.1, hs.2.1, hs.2.2.1, hs.2.2.2.1, hs.2.2.2.2.1, hs.2.2.2.2.2.1,
          hs.2.2.2.2.2.2.1, hdig, hnum]
      | .num (Int.negSucc n) =>
        have hser : serJson (.num (Int.negSucc n)) = '-' :: natChars (n + 1) := rfl
        rw [hser]
        simp only [List.cons_append]
        rw [deVal.eq_def]
        have hnum : deNat (natChars (n + 1) ++ rest) = some (n + 1, rest) :=
          deNat_natChars (n + 1) rest hrest
        simp [hnum, Int.negSucc_eq]
      | .str s =>
        show deVal (f + 1) (( '"' :: (escList s.data ++ [ '"' ])) ++ rest) = some (.str s, rest)
        simp only [List.cons_append, List.append_assoc, List.singleton_append]
        rw [deVal.eq_def]
        simp [deStr_escList]
      | .arr xs =>
        have hL : jsize.jsizeL xs ≤ f := by
          have : jsize (.arr xs) = 1 + jsize.jsizeL xs := rfl
          omega
        show deVal (f + 1) (( '[' :: (serElems xs ++ [ ']' ])) ++ rest) = some (.arr xs, rest)
        simp only [List.cons_append, List.append_assoc, List.singleton_append]
        rw [deVal.eq_def]
        simp [(IH f (Nat.lt_succ_self f)).2.1 xs rest hL]
      | .obj ms =>
        have hM : jsize.jsizeM ms ≤ f := by
          have : jsize (.obj ms) = 1 + jsize.jsizeM ms := rfl
          omega
        show deVal (f + 1) (( '{' :: (serMembers ms ++ [ '}' ])) ++ rest) = some (.obj ms, rest)
        simp only [List.cons_append, List.append_assoc, List.singleton_append]
        rw [deVal.eq_def]
        simp [(IH f (Nat.lt_succ_self f)).2.2 ms rest hM]
  · intro xs rest hL
    have hpos : 1 ≤ jsize.jsizeL xs := jsizeL_pos xs
    cases fuel with
    | zero => omega
    | succ f =>
      match xs with
      | .nil =>
        show deElems (f + 1) (([] : List Char) ++ ']' :: rest) = some (.nil, rest)
        rw [deElems.eq_def]; simp
      | .cons x .nil =>
        obtain ⟨c, t, hser, hc1, hc2, hc3⟩ := serJson_head x
        have hx : jsize x ≤ f := by
          have : jsize.jsizeL (.cons x .nil) = 1 + jsize x + jsize.jsizeL .nil := rfl
          omega
        have hdg : headNotDigit ( ']' :: rest) := by
          intro c' hc'
          simp only [List.head?] at hc'
          rw [← Option.some.inj hc']
          decide
        have hval := (IH f (Nat.lt_succ_self f)).1 x ( ']' :: rest) hx hdg
        show deElems (f + 1) (serJson x ++ ']' :: rest) = some (.cons x .nil, rest)
        rw [deElems.eq_def]
        rw [hser] at hval ⊢
        simp only [List.cons_append] at hval ⊢
        simp [hc1, hval]
      | .cons x (.cons y ys) =>
        obtain ⟨c, t, hser, hc1, hc2, hc3⟩ := serJson_head x
        have hx : jsize x ≤ f := by
          have : jsize.jsizeL (.cons x (.cons y ys)) =
              1 + jsize x + jsize.jsizeL (.cons y ys) := rfl
          omega
        have hL2 : jsize.jsizeL (.cons y ys) ≤ f := by
          have : jsize.jsizeL (.cons x (.cons y ys)) =
              1 + jsize x + jsize.jsizeL (.cons y ys) := rfl
          have := jsize_pos x
          omega
        have hdg : headNotDigit ( ',' :: (serElems (.cons y ys) ++ ']' :: rest)) := by
          intro c' hc'
          simp only [List.head?] at hc'
          rw [← Option.some.inj hc']
          decide
        have hval := (IH f (Nat.lt_succ_self f)).1 x
          ( ',' :: (serElems (.cons y ys) ++ ']' :: rest)) hx hdg
        have htail := (IH f (Nat.lt_succ_self f)).2.1 (.cons y ys) rest hL2
        show deElems (f + 1)
            ((serJson x ++ ',' :: serElems (.cons y ys)) ++ ']' :: rest) =
            some (.cons x (.cons y ys), rest)
        simp only [List.append_assoc, List.cons_append]
        rw [deElems.eq_def]
        rw [hser] at hval ⊢
        simp only [List.cons_append] at hval ⊢
        simp [hc1, hval, htail]
  · intro ms rest hM
    have hpos : 1 ≤ jsize.jsizeM ms := jsizeM_pos ms
    cases fuel with
    | zero => omega
    | succ f =>
      match ms with
      | .nil =>
        show deMembers (f + 1) (([] : List Char) ++ '}' :: rest) = some (.nil, rest)
        rw [deMembers.eq_def]; simp
      | .cons k v .nil =>
        have hv : jsize v ≤ f := by
          have : jsize.jsizeM (.cons k v .nil) = 1 + jsize v + jsize.jsizeM .nil := rfl
          omega
        have hdg : headNotDigit ( '}' :: rest) := by
          intro c' hc'
          simp only [List.head?] at hc'
          rw [← Option.some.inj hc']
          decide
        have hval := (IH f (Nat.lt_succ_self f)).1 v ( '}' :: rest) hv hdg
        show deMembers (f + 1)
            ((( '"' :: (escList k.data ++ [ '"' ])) ++ ':' :: serJson v) ++ '}' :: rest) =
            some (.cons k v .nil, rest)
        simp only [List.append_assoc, List.cons_append, List.singleton_append]
        rw [deMembers.eq_def]
        simp [deStr_escList, hval]
      | .cons k v (.cons k2 v2 ms2) =>
        have hv : jsize v ≤ f := by
          have : jsize.jsizeM (.cons k v (.cons k2 v2 ms2)) =
              1 + jsize v + jsize.jsizeM (.cons k2 v2 ms2) := rfl
          omega
        have hM2 : jsize.jsizeM (.cons k2 v2 ms2) ≤ f := by
          have : jsize.jsizeM (.cons k v (.cons k2 v2 ms2)) =
              1 + jsize v + jsize.jsizeM (.cons k2 v2 ms2) := rfl
          have := jsize_pos v
          omega
        have hdg : headNotDigit ( ',' :: (serMembers (.cons k2 v2 ms2) ++ '}' :: rest)) := by
          intro c' hc'
          simp only [List.head?] at hc'
          rw [← Option.some.inj hc']
          decide
        have hval := (IH f (Nat.lt_succ_self f)).1 v
          ( ',' :: (serMembers (.cons k2 v2 ms2) ++ '}' :: rest)) hv hdg
        have htail := (IH f (Nat.lt_succ_self f)).2.2 (.cons k2 v2 ms2) rest hM2
        show deMembers (f + 1)
            ((( '"' :: (escList k.data ++ [ '"' ])) ++ ':' :: serJson v ++
              ',' :: serMembers (.cons k2 v2 ms2)) ++ '}' :: rest) =
            some (.cons k v (.cons k2 v2 ms2), rest)
        simp only [List.append_assoc, List.cons_append, List.singleton_append]
        rw [deMembers.eq_def]
        simp [deStr_escList, hval, htail]

theorem serJson_injective {a b : Json} (h : serJson a = serJson b) : a = b := by
  have hdg : headNotDigit ([] : List Char) := by intro c hc; simp at hc
  have ha := (deser_rt (max (jsize a) (jsize b))).1 a [] (le_max_left _ _) hdg
  have hb := (deser_rt (max (jsize a) (jsize b))).1 b [] (le_max_right _ _) hdg
  rw [List.append_nil] at ha hb
  rw [h, hb] at ha
  simpa using ha.symm

theorem stringify_injective {a b : Json} (h : stringify a = stringify b) : a = b := by
  apply serJson_injective
  have := congrArg String.data h
  simpa [stringify] using this

/-- Whether a structured value is a container (array or object). -/
def isContainer : Json → Bool
  | .arr _ => true
  | .obj _ => true
  | _ => false

/-- Whether a request-body value is a JavaScript string
(`typeof x === "string"`). -/
def JsVal.isStr : JsVal → Bool
  | .vstr _ => true
  | _ => false

/-- Whether a request-body value is a JavaScript boolean
(`typeof x === "boolean"`). -/
def JsVal.isBool : JsVal → Bool
  | .vbool _ => true
  | _ => false

theorem find?_map_ite {α : Type} (l : List α) (p : α → Bool) (f : α → α) (a : α)
    (hfind : l.find? p = some a) (hp : ∀ x, p x = true → p (f x) = true) :
    (l.map (fun x => if p x then f x else x)).find? p = some (f a) := by
  induction l with
  | nil => simp at hfind
  | cons x xs IH =>
    by_cases hx : p x = true
    · rw [List.find?_cons_of_pos xs hx] at hfind
      have hax : x = a := by simpa using hfind
      subst hax
      simp only [List.map_cons, if_pos hx]
      rw [List.find?_cons_of_pos _ (hp x hx)]
    · rw [List.find?_cons_of_neg xs (by simpa using hx)] at hfind
      simp only [List.map_cons, if_neg hx]
      rw [List.find?_cons_of_neg _ (by simpa using hx)]
      exact IH hfind

theorem findDoc_id {st : St} {docId : Nat} {doc : Doc}
    (h : findDoc st docId = some doc) : doc.id = docId := by
  simpa using List.find?_some h

theorem findVer_id {st : St} {versionId : Nat} {v : Ver}
    (h : findVer st versionId = some v) : v.id = versionId := by
  simpa using List.find?_some h

theorem findVerOfDoc_ids {st : St} {versionId docId : Nat} {v : Ver}
    (h : findVerOfDoc st versionId docId = some v) :
    v.id = versionId ∧ v.documentId = docId := by
  have := List.find?_some h
  simp only [Bool.and_eq_true, beq_iff_eq] at this
  exact this

theorem jdpDiffF_self (fuel : Nat) (a : Json) : jdpDiffF fuel a a = none := by
  cases fuel <;> simp [jdpDiffF]

theorem computeDiff_self (A : String) : computeDiff A A = none := by
  unfold computeDiff diffInputs
  cases h : parseJson A <;> simp [diffPatcherDiff, jdpDiffF_self, h]

/-- C6: for every createVersion request whose content is not a string or
whose isAutoSave is not a boolean, the operation fails with a Validation
error and the state is completely unchanged — the type checks run before
the document is even looked up, so no version is created and no document
content is modified. -/
theorem C6_validation_before_mutation (st : St) (docId : Nat)
    (contentV isAutoSaveV : JsVal) (user? : Option Nat) :
    (contentV.isStr = false →
      createVersion st docId contentV isAutoSaveV user? =
        (st, .badRequest "Content must be a string.")) ∧
    (∀ s, contentV = .vstr s → isAutoSaveV.isBool = false →
      createVersion st docId contentV isAutoSaveV user? =
        (st, .badRequest "isAutoSave is required and must be a boolean.")) := by
  constructor
  · intro h
    cases contentV <;> simp_all [JsVal.isStr, createVersion]
  · intro s hs h
    subst hs
    cases isAutoSaveV <;> simp_all [JsVal.isBool, createVersion]

theorem C6_witness :
    createVersion ⟨[], [], 0, 0⟩ 1 (.vnum 3) (.vbool true) (some 7) =
      (⟨[], [], 0, 0⟩, .badRequest "Content must be a string.") ∧
    createVersion ⟨[], [], 0, 0⟩ 1 (.vstr "x") .vnull (some 7) =
      (⟨[], [], 0, 0⟩, .badRequest "isAutoSave is required and must be a boolean.") :=
  ⟨(C6_validation_before_mutation ⟨[], [], 0, 0⟩ 1 (.vnum 3) (.vbool true) (some 7)).1
      (by decide),
   (C6_validation_before_mutation ⟨[], [], 0, 0⟩ 1 (.vstr "x") .vnull (some 7)).2
      "x" rfl (by decide)⟩

/-- C4: for every existing version v and string X (under the passing
ownership check), updateVersionContent overwrites v.content in place and
changes nothing else: the documents collection, the identifier counter
and every other version are untouched, no version is added, and of v's
fields only content and the mongoose updatedAt change. -/
theorem C4_updateVersionContent_frame (st : St) (vid : Nat) (X : String)
    (u : Nat) (v : Ver) (d : Doc)
    (hv : findVer st vid = some v)
    (hd : findDoc st v.documentId = some d)
    (hu : d.userId = some u) :
    (updateVersionContent st vid (.vstr X) (some u)).1.documents = st.documents ∧
    (updateVersionContent st vid (.vstr X) (some u)).1.nextId = st.nextId ∧
    (updateVersionContent st vid (.vstr X) (some u)).1.versions =
      st.versions.map (fun w =>
        if w.id == vid then { w with content := X, updatedAt := st.now } else w) ∧
    findVer (updateVersionContent st vid (.vstr X) (some u)).1 vid =
      some { v with content := X, updatedAt := st.now } := by
  have hid : v.id = vid := findVer_id hv
  have hres : updateVersionContent st vid (.vstr X) (some u) =
      ({ st with versions := st.versions.map (fun w =>
          if w.id == v.id then { w with content := X, updatedAt := st.now } else w) },
        .internalError) := by
    simp [updateVersionContent, hv, hd, hu]
  rw [hres]
  refine ⟨rfl, rfl, by rw [hid], ?_⟩
  show (st.versions.map (fun w =>
      if w.id == v.id then { w with content := X, updatedAt := st.now } else w)).find?
      (fun w => w.id == vid) = some { v with content := X, updatedAt := st.now }
  rw [← hid]
  exact find?_map_ite st.versions (fun w => w.id == v.id)
    (fun w => { w with content := X, updatedAt := st.now }) v
    (by rw [hid]; exact hv)
    (fun x hx => by simpa using hx)

theorem C4_witness :
    (updateVersionContent
        ⟨[⟨0, "d", "a", some 7, 0, 0⟩], [⟨1, 0, "old", false, some 7, none, none, 0, 0⟩], 2, 9⟩
        1 (.vstr "new") (some 7)).1.documents = [⟨0, "d", "a", some 7, 0, 0⟩] ∧
    (updateVersionContent
        ⟨[⟨0, "d", "a", some 7, 0, 0⟩], [⟨1, 0, "old", false, some 7, none, none, 0, 0⟩], 2, 9⟩
        1 (.vstr "new") (some 7)).1.nextId = 2 ∧
    (updateVersionContent
        ⟨[⟨0, "d", "a", some 7, 0, 0⟩], [⟨1, 0, "old", false, some 7, none, none, 0, 0⟩], 2, 9⟩
        1 (.vstr "new") (some 7)).1.versions =
      [⟨1, 0, "old", false, some 7, none, none, 0, 0⟩].map (fun w =>
        if w.id == 1 then { w with content := "new", updatedAt := 9 } else w) ∧
    findVer (updateVersionContent
        ⟨[⟨0, "d", "a", some 7, 0, 0⟩], [⟨1, 0, "old", false, some 7, none, none, 0, 0⟩], 2, 9⟩
        1 (.vstr "new") (some 7)).1 1 =
      some ⟨1, 0, "new", false, some 7, none, none, 0, 9⟩ :=
  C4_updateVersionContent_frame
    ⟨[⟨0, "d", "a", some 7, 0, 0⟩], [⟨1, 0, "old", false, some 7, none, none, 0, 0⟩], 2, 9⟩
    1 "new" 7 ⟨1, 0, "old", false, some 7, none, none, 0, 0⟩ ⟨0, "d", "a", some 7, 0, 0⟩
    (by decide) (by decide) (by decide)

/-- C2: a successful createVersion with new content B sets the
document's content to B and appends exactly one Version whose content
is B, whose isAutoSave is the given flag, whose mergedFrom is absent,
and whose diff is computed against the document's content before the
call. -/
theorem C2_createVersion_spec (st : St) (docId : Nat) (B : String) (flag : Bool)
    (u : Nat) (doc : Doc)
    (hfind : findDoc st docId = some doc) (hu : doc.userId = some u) :
    ∃ v : Ver,
      (createVersion st docId (.vstr B) (.vbool flag) (some u)).1.versions =
        st.versions ++ [v] ∧
      v.content = B ∧ v.isAutoSave = flag ∧ v.mergedFrom = none ∧
      v.diff = (computeDiff doc.content B).map StoredDiff.delta ∧
      findDoc (createVersion st docId (.vstr B) (.vbool flag) (some u)).1 docId =
        some { doc with content := B, updatedAt := st.now } ∧
      (createVersion st docId (.vstr B) (.vbool flag) (some u)).2 = .created := by
  have hid : doc.id = docId := findDoc_id hfind
  refine ⟨⟨st.nextId, doc.id, B, flag, doc.userId,
    (computeDiff doc.content B).map .delta, none, st.now, st.now⟩,
    ?_, rfl, rfl, rfl, rfl, ?_, ?_⟩
  · simp [createVersion, hfind, hu]
  · have hpost : (createVersion st docId (.vstr B) (.vbool flag) (some u)).1.documents =
        st.documents.map (fun d =>
          if d.id == doc.id then { d with content := B, updatedAt := st.now } else d) := by
      simp [createVersion, hfind, hu]
    show (createVersion st docId (.vstr B) (.vbool flag) (some u)).1.documents.find?
        (fun d => d.id == docId) = some { doc with content := B, updatedAt := st.now }
    rw [hpost, ← hid]
    exact find?_map_ite st.documents (fun d => d.id == doc.id)
      (fun d => { d with content := B, updatedAt := st.now }) doc
      (by rw [hid]; exact hfind) (fun x hx => by simpa using hx)
  · simp [createVersion, hfind, hu]

theorem C2_witness :
    ∃ v : Ver,
      (createVersion ⟨[⟨0, "d", "hello", some 7, 0, 0⟩], [], 1, 9⟩
          0 (.vstr "world") (.vbool true) (some 7)).1.versions = [] ++ [v] ∧
      v.content = "world" ∧ v.isAutoSave = true ∧ v.mergedFrom = none ∧
      v.diff = (computeDiff "hello" "world").map StoredDiff.delta ∧
      findDoc (createVersion ⟨[⟨0, "d", "hello", some 7, 0, 0⟩], [], 1, 9⟩
          0 (.vstr "world") (.vbool true) (some 7)).1 0 =
        some { (⟨0, "d", "hello", some 7, 0, 0⟩ : Doc) with
          content := "world", updatedAt := 9 } ∧
      (createVersion ⟨[⟨0, "d", "hello", some 7, 0, 0⟩], [], 1, 9⟩
          0 (.vstr "world") (.vbool true) (some 7)).2 = .created :=
  C2_createVersion_spec ⟨[⟨0, "d", "hello", some 7, 0, 0⟩], [], 1, 9⟩
    0 "world" true 7 ⟨0, "d", "hello", some 7, 0, 0⟩ (by decide) (by decide)

/-- C7: a successful document creation with content C creates an
initial Version alongside the document whose content equals C, whose
stored diff is the no-op empty list (the literal `[]` the handler
persists), and whose isAutoSave is false. -/
theorem C7_initial_version (st : St) (name C : String) (u : Nat)
    (hname : trimEmpty name = false) :
    ∃ v : Ver,
      (createDocument st (.vstr name) (.vstr C) (some u) true).1.versions =
        st.versions ++ [v] ∧
      v.content = C ∧ v.diff = some StoredDiff.emptyList ∧ v.isAutoSave = false ∧
      (createDocument st (.vstr name) (.vstr C) (some u) true).2 = .created := by
  have hres : createDocument st (.vstr name) (.vstr C) (some u) true =
      ({ st with
          documents := st.documents ++ [⟨st.nextId, name, C, some u, st.now, st.now⟩],
          versions := st.versions ++
            [⟨st.nextId + 1, st.nextId, C, false, some u, some .emptyList, none, st.now, st.now⟩],
          nextId := st.nextId + 1 + 1 }, .created) := by
    simp [createDocument, hname]
  exact ⟨_, by rw [hres], rfl, rfl, rfl, by rw [hres]⟩

theorem C7_witness :
    ∃ v : Ver,
      (createDocument ⟨[], [], 0, 3⟩ (.vstr "d") (.vstr "c") (some 7) true).1.versions =
        [] ++ [v] ∧
      v.content = "c" ∧ v.diff = some StoredDiff.emptyList ∧ v.isAutoSave = false ∧
      (createDocument ⟨[], [], 0, 3⟩ (.vstr "d") (.vstr "c") (some 7) true).2 = .created :=
  C7_initial_version ⟨[], [], 0, 3⟩ "d" "c" 7 (by decide)

/-- C3 counterexample: with a persistence failure at the initial
Version creation, the document creation handler leaves the Document
persisted and no Version at all — creation of the pair is not atomic,
refuting the claim that either both or neither come into existence. -/
theorem C3_counterexample :
    (createDocument ⟨[], [], 0, 0⟩ (.vstr "d") (.vstr "c") (some 7) false).1.documents.length = 1 ∧
    (createDocument ⟨[], [], 0, 0⟩ (.vstr "d") (.vstr "c") (some 7) false).1.versions = [] ∧
    (createDocument ⟨[], [], 0, 0⟩ (.vstr "d") (.vstr "c") (some 7) false).2 = .internalError := by
  refine ⟨?_, ?_, ?_⟩ <;> decide

/-- C3 (amended): document creation is sequential, not atomic — when
the initial Version's persistence succeeds, both records are appended;
when it fails after the Document was created, the Document remains
persisted with no Version and the handler reports an Internal error. -/
theorem C3_createDocument_partial (st : St) (name C : String) (u : Nat)
    (hname : trimEmpty name = false) :
    ((createDocument st (.vstr name) (.vstr C) (some u) true).1.documents =
        st.documents ++ [⟨st.nextId, name, C, some u, st.now, st.now⟩] ∧
      (createDocument st (.vstr name) (.vstr C) (some u) true).1.versions =
        st.versions ++
          [⟨st.nextId + 1, st.nextId, C, false, some u, some .emptyList, none, st.now, st.now⟩] ∧
      (createDocument st (.vstr name) (.vstr C) (some u) true).2 = .created) ∧
    ((createDocument st (.vstr name) (.vstr C) (some u) false).1.documents =
        st.documents ++ [⟨st.nextId, name, C, some u, st.now, st.now⟩] ∧
      (createDocument st (.vstr name) (.vstr C) (some u) false).1.versions = st.versions ∧
      (createDocument st (.vstr name) (.vstr C) (some u) false).2 = .internalError) := by
  refine ⟨⟨?_, ?_, ?_⟩, ⟨?_, ?_, ?_⟩⟩ <;> simp [createDocument, hname]

theorem C3_witness :
    ((createDocument ⟨[], [], 0, 3⟩ (.vstr "d") (.vstr "c") (some 7) true).1.documents =
        [] ++ [⟨0, "d", "c", some 7, 3, 3⟩] ∧
      (createDocument ⟨[], [], 0, 3⟩ (.vstr "d") (.vstr "c") (some 7) true).1.versions =
        [] ++ [⟨0 + 1, 0, "c", false, some 7, some .emptyList, none, 3, 3⟩] ∧
      (createDocument ⟨[], [], 0, 3⟩ (.vstr "d") (.vstr "c") (some 7) true).2 = .created) ∧
    ((createDocument ⟨[], [], 0, 3⟩ (.vstr "d") (.vstr "c") (some 7) false).1.documents =
        [] ++ [⟨0, "d", "c", some 7, 3, 3⟩] ∧
      (createDocument ⟨[], [], 0, 3⟩ (.vstr "d") (.vstr "c") (some 7) false).1.versions = [] ∧
      (createDocument ⟨[], [], 0, 3⟩ (.vstr "d") (.vstr "c") (some 7) false).2 = .internalError) :=
  C3_createDocument_partial ⟨[], [], 0, 3⟩ "d" "c" 7 (by decide)

/-- C1 counterexample: merging version 1 (content "b") onto document 0
(content "a") succeeds and appends a version whose stored diff is
absent, whereas the claim requires it to equal the DiffEngine diff of
the two contents, which is a non-empty whole-value replace here — the
merge handler never computes a diff. -/
theorem C1_counterexample :
    (mergeVersion ⟨[⟨0, "d", "a", some 7, 0, 0⟩],
        [⟨1, 0, "b", false, some 7, none, none, 0, 0⟩], 2, 9⟩ 0 1 (some 7)).2 = .ok ∧
    ((mergeVersion ⟨[⟨0, "d", "a", some 7, 0, 0⟩],
        [⟨1, 0, "b", false, some 7, none, none, 0, 0⟩], 2, 9⟩ 0 1
        (some 7)).1.versions.getLast?).map Ver.diff = some none ∧
    (computeDiff "a" "b").map StoredDiff.delta ≠ none := by
  refine ⟨?_, ?_, ?_⟩ <;> decide

/-- C1 (amended): MergeCoordinator.merge sets the document's content to
the source version's content and appends exactly one new Version whose
content equals the source's, whose isAutoSave is false and whose
mergedFrom equals the source version's id, regardless of intervening
versions — but no diff is computed or stored on the appended version
(its diff field is left absent). -/
theorem C1_merge_restore (st : St) (docId versionId : Nat) (u : Nat)
    (doc : Doc) (v : Ver)
    (hfind : findDoc st docId = some doc) (hu : doc.userId = some u)
    (hv : findVerOfDoc st versionId docId = some v) :
    ∃ m : Ver,
      (mergeVersion st docId versionId (some u)).1.versions = st.versions ++ [m] ∧
      m.content = v.content ∧ m.isAutoSave = false ∧ m.mergedFrom = some v.id ∧
      m.diff = none ∧
      findDoc (mergeVersion st docId versionId (some u)).1 docId =
        some { doc with content := v.content, updatedAt := st.now } ∧
      (mergeVersion st docId versionId (some u)).2 = .ok := by
  have hid : doc.id = docId := findDoc_id hfind
  refine ⟨⟨st.nextId, doc.id, v.content, false, doc.userId, none, some v.id,
    st.now, st.now⟩, ?_, rfl, rfl, rfl, rfl, ?_, ?_⟩
  · simp [mergeVersion, hfind, hu, hv]
  · have hpost : (mergeVersion st docId versionId (some u)).1.documents =
        st.documents.map (fun d =>
          if d.id == doc.id then { d with content := v.content, updatedAt := st.now } else d) := by
      simp [mergeVersion, hfind, hu, hv]
    show (mergeVersion st docId versionId (some u)).1.documents.find?
        (fun d => d.id == docId) = some { doc with content := v.content, updatedAt := st.now }
    rw [hpost, ← hid]
    exact find?_map_ite st.documents (fun d => d.id == doc.id)
      (fun d => { d with content := v.content, updatedAt := st.now }) doc
      (by rw [hid]; exact hfind) (fun x hx => by simpa using hx)
  · simp [mergeVersion, hfind, hu, hv]

theorem C1_witness :
    ∃ m : Ver,
      (mergeVersion ⟨[⟨0, "d", "a", some 7, 0, 0⟩],
          [⟨1, 0, "b", false, some 7, none, none, 0, 0⟩], 2, 9⟩ 0 1 (some 7)).1.versions =
        [⟨1, 0, "b", false, some 7, none, none, 0, 0⟩] ++ [m] ∧
      m.content = "b" ∧ m.isAutoSave = false ∧ m.mergedFrom = some 1 ∧
      m.diff = none ∧
      findDoc (mergeVersion ⟨[⟨0, "d", "a", some 7, 0, 0⟩],
          [⟨1, 0, "b", false, some 7, none, none, 0, 0⟩], 2, 9⟩ 0 1 (some 7)).1 0 =
        some { (⟨0, "d", "a", some 7, 0, 0⟩ : Doc) with content := "b", updatedAt := 9 } ∧
      (mergeVersion ⟨[⟨0, "d", "a", some 7, 0, 0⟩],
          [⟨1, 0, "b", false, some 7, none, none, 0, 0⟩], 2, 9⟩ 0 1 (some 7)).2 = .ok :=
  C1_merge_restore ⟨[⟨0, "d", "a", some 7, 0, 0⟩],
      [⟨1, 0, "b", false, some 7, none, none, 0, 0⟩], 2, 9⟩ 0 1 7
    ⟨0, "d", "a", some 7, 0, 0⟩ ⟨1, 0, "b", false, some 7, none, none, 0, 0⟩
    (by decide) (by decide) (by decide)

/-- C8: diffing any content A against itself yields the empty diff, and
a createVersion whose new content equals the document's current content
stores the empty diff (an absent diff field) on the created Version —
for JSON-parseable and for opaque A alike. -/
theorem C8_diff_self_empty (A : String) (st : St) (docId : Nat) (u : Nat)
    (doc : Doc) (flag : Bool) :
    computeDiff A A = none ∧
    (findDoc st docId = some doc → doc.userId = some u → doc.content = A →
      ∃ v : Ver,
        (createVersion st docId (.vstr A) (.vbool flag) (some u)).1.versions =
          st.versions ++ [v] ∧ v.diff = none) := by
  refine ⟨computeDiff_self A, ?_⟩
  intro hfind hu hc
  refine ⟨⟨st.nextId, doc.id, A, flag, doc.userId,
    (computeDiff doc.content A).map .delta, none, st.now, st.now⟩, ?_, ?_⟩
  · simp [createVersion, hfind, hu]
  · show (computeDiff doc.content A).map StoredDiff.delta = none
    rw [hc, computeDiff_self]
    rfl

theorem C8_witness :
    computeDiff "hello" "hello" = none ∧
    ∃ v : Ver,
      (createVersion ⟨[⟨0, "d", "hello", some 7, 0, 0⟩], [], 1, 9⟩
          0 (.vstr "hello") (.vbool false) (some 7)).1.versions = [] ++ [v] ∧
      v.diff = none :=
  ⟨(C8_diff_self_empty "hello" ⟨[⟨0, "d", "hello", some 7, 0, 0⟩], [], 1, 9⟩
      0 7 ⟨0, "d", "hello", some 7, 0, 0⟩ false).1,
   (C8_diff_self_empty "hello" ⟨[⟨0, "d", "hello", some 7, 0, 0⟩], [], 1, 9⟩
      0 7 ⟨0, "d", "hello", some 7, 0, 0⟩ false).2 (by decide) (by decide) (by decide)⟩

/-- C9: in the authenticated controller variant, updateDocumentName and
updateVersionContent persist their in-place mutation and then report an
Internal error, because the success response reads the undefined
identifiers doc / version — the state is mutated despite the error
result. -/
theorem C9_mutation_despite_internal_error (st : St) (docId : Nat) (name : String)
    (u : Nat) (doc : Doc) (vid : Nat) (X : String) (v : Ver) (d : Doc) :
    (trimEmpty name = false → findDoc st docId = some doc → doc.userId = some u →
      (updateDocumentName st docId (.vstr name) (some u)).2 = .internalError ∧
      findDoc (updateDocumentName st docId (.vstr name) (some u)).1 docId =
        some { doc with name := name, updatedAt := st.now }) ∧
    (findVer st vid = some v → findDoc st v.documentId = some d → d.userId = some u →
      (updateVersionContent st vid (.vstr X) (some u)).2 = .internalError ∧
      findVer (updateVersionContent st vid (.vstr X) (some u)).1 vid =
        some { v with content := X, updatedAt := st.now }) := by
  constructor
  · intro hname hfind hu
    have hid : doc.id = docId := findDoc_id hfind
    refine ⟨by simp [updateDocumentName, hname, hfind, hu], ?_⟩
    have hpost : (updateDocumentName st docId (.vstr name) (some u)).1.documents =
        st.documents.map (fun e =>
          if e.id == doc.id then { e with name := name, updatedAt := st.now } else e) := by
      simp [updateDocumentName, hname, hfind, hu]
    show (updateDocumentName st docId (.vstr name) (some u)).1.documents.find?
        (fun e => e.id == docId) = some { doc with name := name, updatedAt := st.now }
    rw [hpost, ← hid]
    exact find?_map_ite st.documents (fun e => e.id == doc.id)
      (fun e => { e with name := name, updatedAt := st.now }) doc
      (by rw [hid]; exact hfind) (fun x hx => by simpa using hx)
  · intro hv hd hu
    have hid : v.id = vid := findVer_id hv
    refine ⟨by simp [updateVersionContent, hv, hd, hu], ?_⟩
    have hpost : (updateVersionContent st vid (.vstr X) (some u)).1.versions =
        st.versions.map (fun w =>
          if w.id == v.id then { w with content := X, updatedAt := st.now } else w) := by
      simp [updateVersionContent, hv, hd, hu]
    show (updateVersionContent st vid (.vstr X) (some u)).1.versions.find?
        (fun w => w.id == vid) = some { v with content := X, updatedAt := st.now }
    rw [hpost, ← hid]
    exact find?_map_ite st.versions (fun w => w.id == v.id)
      (fun w => { w with content := X, updatedAt := st.now }) v
      (by rw [hid]; exact hv) (fun x hx => by simpa using hx)

theorem C9_witness :
    ((updateDocumentName ⟨[⟨0, "d", "a", some 7, 0, 0⟩], [], 1, 9⟩
        0 (.vstr "e") (some 7)).2 = .internalError ∧
      findDoc (updateDocumentName ⟨[⟨0, "d", "a", some 7, 0, 0⟩], [], 1, 9⟩
          0 (.vstr "e") (some 7)).1 0 =
        some { (⟨0, "d", "a", some 7, 0, 0⟩ : Doc) with name := "e", updatedAt := 9 }) ∧
    ((updateVersionContent
        ⟨[⟨0, "d", "a", some 7, 0, 0⟩], [⟨1, 0, "old", false, some 7, none, none, 0, 0⟩], 2, 9⟩
        1 (.vstr "new") (some 7)).2 = .internalError ∧
      findVer (updateVersionContent
          ⟨[⟨0, "d", "a", some 7, 0, 0⟩], [⟨1, 0, "old", false, some 7, none, none, 0, 0⟩], 2, 9⟩
          1 (.vstr "new") (some 7)).1 1 =
        some { (⟨1, 0, "old", false, some 7, none, none, 0, 0⟩ : Ver) with
          content := "new", updatedAt := 9 }) :=
  ⟨(C9_mutation_despite_internal_error ⟨[⟨0, "d", "a", some 7, 0, 0⟩], [], 1, 9⟩
      0 "e" 7 ⟨0, "d", "a", some 7, 0, 0⟩ 0 "x" ⟨0, 0, "", false, none, none, none, 0, 0⟩
      ⟨0, "", "", none, 0, 0⟩).1 (by decide) (by decide) (by decide),
   (C9_mutation_despite_internal_error
      ⟨[⟨0, "d", "a", some 7, 0, 0⟩], [⟨1, 0, "old", false, some 7, none, none, 0, 0⟩], 2, 9⟩
      0 "e" 7 ⟨0, "d", "a", some 7, 0, 0⟩ 1 "new" ⟨1, 0, "old", false, some 7, none, none, 0, 0⟩
      ⟨0, "d", "a", some 7, 0, 0⟩).2 (by decide) (by decide) (by decide)⟩

theorem jdpDiffF_scalar (fuel : Nat) (a b : Json) (hca : isContainer a = false)
    (hcb : isContainer b = false) (hne : a ≠ b) :
    jdpDiffF fuel a b = some (.replace a b) := by
  cases fuel with
  | zero => simp [jdpDiffF, hne]
  | succ f =>
    rw [jdpDiffF.eq_def]
    simp only [if_neg hne]
    cases a <;> cases b <;> simp_all [isContainer]

/-- C5 counterexample: at the pair A = B = "hello" (both opaque,
non-JSON), the engine's diff is the empty diff (the equality check runs
first), not a single whole-value replacement as the claim demands of
every pair with an unparseable side. -/
theorem C5_counterexample :
    parseJson "hello" = none ∧ computeDiff "hello" "hello" = none := by
  refine ⟨?_, ?_⟩ <;> decide

/-- C5 (amended): for every pair (A, B) where at least one side is not
parseable as JSON, or where both parse to non-container scalars, and
the compared values are unequal (the raw strings in the opaque case,
the decoded scalars otherwise), the computed diff is a single
whole-value replacement with no structural recursion; when the
compared values are equal the diff is empty instead. -/
theorem C5_opaque_scalar_replace (A B : String) :
    ((parseJson A = none ∨ parseJson B = none) → A ≠ B →
      computeDiff A B = some (.replace (.str A) (.str B))) ∧
    (∀ a b : Json, parseJson A = some a → parseJson B = some b →
      isContainer a = false → isContainer b = false → a ≠ b →
      computeDiff A B = some (.replace a b)) := by
  constructor
  · intro hp hne
    have hinputs : diffInputs A B = (.str A, .str B) := by
      rcases hp with h | h
      · simp [diffInputs, h]
      · unfold diffInputs
        cases hA : parseJson A <;> simp [h]
    show diffPatcherDiff (diffInputs A B).1 (diffInputs A B).2 = _
    rw [hinputs]
    exact jdpDiffF_scalar _ _ _ rfl rfl (by simpa using hne)
  · intro a b ha hb hca hcb hne
    have hinputs : diffInputs A B = (a, b) := by
      simp [diffInputs, ha, hb]
    show diffPatcherDiff (diffInputs A B).1 (diffInputs A B).2 = _
    rw [hinputs]
    exact jdpDiffF_scalar _ _ _ hca hcb hne

theorem C5_witness :
    computeDiff "hello" "world" = some (.replace (.str "hello") (.str "world")) ∧
    computeDiff "1" "2" = some (.replace (.num 1) (.num 2)) :=
  ⟨(C5_opaque_scalar_replace "hello" "world").1 (Or.inl (by decide)) (by decide),
   (C5_opaque_scalar_replace "1" "2").2 (.num 1) (.num 2)
     (by decide) (by decide) rfl rfl (by decide)⟩

/-- C10: the diff engine's object-identity function returns the
element's id field exactly when that field is present and truthy; for
an element whose id is absent or falsy (null, 0, the empty string,
false) the identity key falls back to the serialization of the entire
element, so two elements sharing such a falsy id but differing anywhere
are never hash-matched as the same object across the two sides. -/
theorem C10_objectHash_identity (o v e1 e2 : Json) :
    (getField o "id" = some v → jsTruthy v = true → objectHash o = v) ∧
    ((getField o "id" = none ∨ ∃ w, getField o "id" = some w ∧ jsTruthy w = false) →
      objectHash o = .str (stringify o)) ∧
    ((getField e1 "id" = none ∨ ∃ w, getField e1 "id" = some w ∧ jsTruthy w = false) →
      (getField e2 "id" = none ∨ ∃ w, getField e2 "id" = some w ∧ jsTruthy w = false) →
      e1 ≠ e2 → itemsMatch e1 e2 = false) := by
  have hFalsy : ∀ x : Json,
      (getField x "id" = none ∨ ∃ w, getField x "id" = some w ∧ jsTruthy w = false) →
      objectHash x = .str (stringify x) := by
    intro x hx
    rcases hx with h | ⟨w, hw, hwf⟩
    · simp [objectHash, h]
    · simp [objectHash, hw, hwf]
  refine ⟨?_, hFalsy o, ?_⟩
  · intro h ht
    simp [objectHash, h, ht]
  · intro h1 h2 hne
    by_contra hmatch
    have hm : itemsMatch e1 e2 = true := by
      simpa using hmatch
    have heq : objectHash e1 = objectHash e2 := by
      simpa [itemsMatch] using hm
    rw [hFalsy e1 h1, hFalsy e2 h2] at heq
    have hser : stringify e1 = stringify e2 := by
      injection heq
    exact hne (stringify_injective hser)

theorem C10_witness :
    objectHash (.obj (.cons "id" (.num 5) .nil)) = .num 5 ∧
    objectHash (.obj (.cons "id" (.num 0) (.cons "x" (.num 1) .nil))) =
      .str (stringify (.obj (.cons "id" (.num 0) (.cons "x" (.num 1) .nil)))) ∧
    itemsMatch (.obj (.cons "id" (.num 0) (.cons "x" (.num 1) .nil)))
      (.obj (.cons "id" (.num 0) (.cons "x" (.num 2) .nil))) = false :=
  ⟨(C10_objectHash_identity (.obj (.cons "id" (.num 5) .nil)) (.num 5) .null .null).1
      (by decide) (by decide),
   (C10_objectHash_identity (.obj (.cons "id" (.num 0) (.cons "x" (.num 1) .nil)))
      .null .null .null).2.1 (Or.inr ⟨.num 0, by decide, by decide⟩),
   (C10_objectHash_identity .null .null
      (.obj (.cons "id" (.num 0) (.cons "x" (.num 1) .nil)))
      (.obj (.cons "id" (.num 0) (.cons "x" (.num 2) .nil)))).2.2
      (Or.inr ⟨.num 0, by decide, by decide⟩)
      (Or.inr ⟨.num 0, by decide, by decide⟩) (by decide)⟩
